import Mathlib

/-!
Verification development for the BAScraper fetch engine.

Shallow embedding of the core operations of the repository:
  - the time-segment computation of `BAScraper.get` (BAScraper.py),
  - the result indexing / merge steps of `BAScraper.get`,
  - the duplicate-resolution pass `preprocess_json` and the deletion
    heuristic `_is_deleted` (BAScraper/utils.py),
  - the time-window pagination loop `ArcticShift._fetch_time_window` and
    the comment fan-out consumer `ArcticShift._fetch_post_comments`
    together with `BaseService.response_exception_handler`
    (services/arcticshift.py, services/base_service.py),
  - the adaptive rate limiter token gate (utils/limiter.py).

Python dicts are modelled as association lists with unique keys, Python
floats of the segment arithmetic as exact rationals, and the `asyncio`
exception flow as explicit `Except` values.
-/

/-! ## Association-list model of Python dicts (string keys) -/

/-- Lookup of a key in a dict modelled as an association list
(`d[k]` / `d.get(k)` on a Python dict; first binding wins). -/
def alookup {α : Type} (k : String) : List (String × α) → Option α
  | [] => none
  | (k2, v) :: rest => if k2 = k then some v else alookup k rest

/-- Dict assignment `d[k] = v`: replace the binding in place when the key
exists, append a fresh binding otherwise. -/
def aset {α : Type} (k : String) (v : α) : List (String × α) → List (String × α)
  | [] => [(k, v)]
  | (k2, v2) :: rest => if k2 = k then (k2, v) :: rest else (k2, v2) :: aset k v rest

/-- Dict key deletion (the removal part of `d.pop(k)`). -/
def aerase {α : Type} (k : String) : List (String × α) → List (String × α)
  | [] => []
  | (k2, v2) :: rest => if k2 = k then rest else (k2, v2) :: aerase k rest

/-- The keys of a dict, in insertion order. -/
def akeys {α : Type} (m : List (String × α)) : List String :=
  m.map Prod.fst

theorem alookup_aset_self {α : Type} (k : String) (v : α) (m : List (String × α)) :
    alookup k (aset k v m) = some v := by
  induction m with
  | nil => simp [aset, alookup]
  | cons hd tl ih =>
    obtain ⟨k2, v2⟩ := hd
    by_cases h : k2 = k
    · simp [aset, alookup, h]
    · simp [aset, alookup, h, ih]

theorem alookup_aset_ne {α : Type} (k k2 : String) (v : α) (m : List (String × α))
    (h : k2 ≠ k) : alookup k (aset k2 v m) = alookup k m := by
  induction m with
  | nil => simp [aset, alookup, h]
  | cons hd tl ih =>
    obtain ⟨k3, v3⟩ := hd
    by_cases h3 : k3 = k2
    · subst h3
      simp [aset, alookup, h]
    · simp [aset, alookup, h3, ih]

/-- A key absent from the key list looks up to `none`. -/
theorem alookup_eq_none_of_not_mem {α : Type} (k : String) (m : List (String × α))
    (h : k ∉ akeys m) : alookup k m = none := by
  induction m with
  | nil => simp [alookup]
  | cons hd tl ih =>
    obtain ⟨k2, v2⟩ := hd
    simp only [akeys, List.map_cons, List.mem_cons, not_or] at h
    have hne : ¬ (k2 = k) := fun he => h.1 he.symm
    simp only [alookup, if_neg hne]
    exact ih (by simpa [akeys] using h.2)

/-- After erasing key `k` from a dict whose keys are distinct, `k` is gone. -/
theorem alookup_aerase_self {α : Type} (k : String) (m : List (String × α))
    (hnd : (akeys m).Nodup) : alookup k (aerase k m) = none := by
  induction m with
  | nil => simp [aerase, alookup]
  | cons hd tl ih =>
    obtain ⟨k2, v2⟩ := hd
    simp only [akeys, List.map_cons, List.nodup_cons] at hnd
    by_cases h : k2 = k
    · subst h
      simp only [aerase, if_pos rfl]
      exact alookup_eq_none_of_not_mem _ _ hnd.1
    · simp only [aerase, if_neg h, alookup, if_neg h]
      exact ih hnd.2

/-- A key is in `akeys` exactly when lookup succeeds. -/
theorem alookup_isSome_iff_mem {α : Type} (k : String) (m : List (String × α)) :
    (alookup k m).isSome = true ↔ k ∈ akeys m := by
  induction m with
  | nil => simp [alookup, akeys]
  | cons hd tl ih =>
    obtain ⟨k2, v2⟩ := hd
    by_cases h : k2 = k
    · subst h
      simp [alookup, akeys]
    · simp [alookup, akeys, h, ih, Ne.symm h]

/-! ## Claim C9: path selection in `BAScraper.get`

The time-partitioned path triggers on `if v_settings.after and v_settings.before:`
which uses Python truthiness of the optional epoch integers. -/

/-- Python truthiness of an optional integer (`None` and `0` are falsy). -/
def pyTruthy : Option Int → Bool
  | none => false
  | some v => v != 0

/-- The two code paths of `BAScraper.get`. -/
inductive FetchPath
  | segmented
  | singlePage
  deriving DecidableEq, Repr

/-- Path selection of `BAScraper.get`:
`if v_settings.after and v_settings.before:` takes the time-partitioned
(segmented) path, otherwise the single-request shortcut. -/
def getPath (after before : Option Int) : FetchPath :=
  if pyTruthy after && pyTruthy before then .segmented else .singlePage

/-- Claim C9: `BAScraper.get` enters the segmented path only when both bounds
are truthy; whenever either bound is present but equal to `0` (epoch zero),
the single-page shortcut is taken instead. -/
theorem c9_epoch_zero_takes_single_page (after before : Option Int)
    (h : after = some 0 ∨ before = some 0) :
    getPath after before = FetchPath.singlePage := by
  rcases h with h | h
  · subst h
    simp [getPath, pyTruthy]
  · subst h
    cases after with
    | none => simp [getPath, pyTruthy]
    | some v => simp [getPath, pyTruthy]

/-- Witness for C9 at the concrete input `after = 0, before = 1700000000`. -/
theorem c9_witness :
    getPath (some 0) (some 1700000000) = FetchPath.singlePage :=
  c9_epoch_zero_takes_single_page (some 0) (some 1700000000) (Or.inl rfl)

/-! ## Claim C8: single-page shortcut pops `id`, windowed path keeps it

The single-page shortcut of `BAScraper.get` builds
`{ent.pop("id"): ent for ent in single_result}` while the windowed path
builds `{submission["id"]: submission for submission in task.result()}`. -/

/-- A record as returned by the provider: an opaque JSON object, modelled
as a dict from field names to (string) values. -/
abbrev PRec := List (String × String)

/-- `ent.pop("id")`: returns the value of the `id` field together with the
record with that field removed; `none` models the `KeyError` raised when the
field is absent. -/
def popId (r : PRec) : Option (String × PRec) :=
  match alookup "id" r with
  | none => none
  | some v => some (v, aerase "id" r)

/-- The dict comprehension `{ent.pop("id"): ent for ent in single_result}`
of the single-page shortcut, as a left-to-right loop over the result list
(later duplicate keys overwrite earlier ones, as in a Python dict). -/
def buildSingleMapGo (acc : List (String × PRec)) : List PRec → Option (List (String × PRec))
  | [] => some acc
  | r :: rest =>
    match popId r with
    | none => none
    | some p => buildSingleMapGo (aset p.1 p.2 acc) rest

/-- The result map of the single-page shortcut of `BAScraper.get`. -/
def buildSingleMap (rs : List PRec) : Option (List (String × PRec)) :=
  buildSingleMapGo [] rs

/-- The per-task indexing `{submission["id"]: submission for submission in
task.result()}` of the windowed path of `BAScraper.get`. -/
def indexSubmissionsGo (acc : List (String × PRec)) : List PRec → Option (List (String × PRec))
  | [] => some acc
  | r :: rest =>
    match alookup "id" r with
    | none => none
    | some i => indexSubmissionsGo (aset i r acc) rest

/-- Index one task's submissions by their `id` field. -/
def indexSubmissions (rs : List PRec) : Option (List (String × PRec)) :=
  indexSubmissionsGo [] rs

theorem mem_aset {α : Type} (k : String) (v : α) (m : List (String × α)) :
    ∀ kv ∈ aset k v m, kv = (k, v) ∨ kv ∈ m := by
  induction m with
  | nil => simp [aset]
  | cons hd tl ih =>
    obtain ⟨k2, v2⟩ := hd
    intro kv hkv
    by_cases h : k2 = k
    · subst h
      simp only [aset, if_true, eq_self_iff_true, List.mem_cons] at hkv
      rcases hkv with h2 | h2
      · exact Or.inl h2
      · exact Or.inr (List.mem_cons_of_mem _ h2)
    · simp only [aset, if_neg h, List.mem_cons] at hkv
      rcases hkv with h2 | h2
      · exact Or.inr (by simp [h2])
      · rcases ih kv h2 with h3 | h3
        · exact Or.inl h3
        · exact Or.inr (List.mem_cons_of_mem _ h3)

theorem buildSingleMapGo_values (rs : List PRec) :
    ∀ acc m, (∀ r ∈ rs, (akeys r).Nodup) →
      (∀ kv ∈ acc, alookup "id" kv.2 = none) →
      buildSingleMapGo acc rs = some m →
      ∀ kv ∈ m, alookup "id" kv.2 = none := by
  induction rs with
  | nil =>
    intro acc m _ hacc hb
    simp only [buildSingleMapGo, Option.some.injEq] at hb
    subst hb
    exact hacc
  | cons r rest ih =>
    intro acc m hnd hacc hb
    simp only [buildSingleMapGo] at hb
    rcases hp : popId r with _ | p
    · rw [hp] at hb
      exact absurd hb (by simp)
    · rw [hp] at hb
      refine ih _ m (fun r2 hr2 => hnd r2 (List.mem_cons_of_mem _ hr2)) ?_ hb
      intro kv hkv
      rcases mem_aset p.1 p.2 acc kv hkv with h2 | h2
      · subst h2
        simp only [popId] at hp
        rcases hl : alookup "id" r with _ | v
        · rw [hl] at hp
          exact absurd hp (by simp)
        · rw [hl] at hp
          simp only [Option.some.injEq] at hp
          subst hp
          exact alookup_aerase_self _ _ (hnd r (List.mem_cons_self _ _))
      · exact hacc kv h2

theorem indexSubmissionsGo_values (rs : List PRec) :
    ∀ acc m, (∀ kv ∈ acc, (alookup "id" kv.2).isSome = true) →
      indexSubmissionsGo acc rs = some m →
      ∀ kv ∈ m, (alookup "id" kv.2).isSome = true := by
  induction rs with
  | nil =>
    intro acc m hacc hb
    simp only [indexSubmissionsGo, Option.some.injEq] at hb
    subst hb
    exact hacc
  | cons r rest ih =>
    intro acc m hacc hb
    simp only [indexSubmissionsGo] at hb
    rcases hl : alookup "id" r with _ | i
    · rw [hl] at hb
      exact absurd hb (by simp)
    · rw [hl] at hb
      refine ih _ m ?_ hb
      intro kv hkv
      rcases mem_aset i r acc kv hkv with h2 | h2
      · subst h2
        simp [hl]
      · exact hacc kv h2

/-- Claim C8: in the single-page shortcut every value of the returned map
has had its `id` key removed (built with `ent.pop("id")`), whereas in the
time-windowed path every indexed record still contains its `id` field. -/
theorem c8_single_page_pops_id (rs : List PRec)
    (hnd : ∀ r ∈ rs, (akeys r).Nodup) :
    (∀ m, buildSingleMap rs = some m → ∀ kv ∈ m, alookup "id" kv.2 = none) ∧
    (∀ m, indexSubmissions rs = some m → ∀ kv ∈ m, (alookup "id" kv.2).isSome = true) := by
  constructor
  · intro m hb
    exact buildSingleMapGo_values rs [] m hnd (by simp) hb
  · intro m hb
    exact indexSubmissionsGo_values rs [] m (by simp) hb

/-- Witness for C8 on one concrete record: after the single-page build the
value lost its `id` binding, after the windowed indexing it kept it. -/
theorem c8_witness :
    alookup "id" [("body", "b")] = none ∧
      (alookup "id" [("id", "a"), ("body", "b")]).isSome = true :=
  ⟨(c8_single_page_pops_id [[("id", "a"), ("body", "b")]] (by decide)).1
      [("a", [("body", "b")])] (by decide) ("a", [("body", "b")]) (by decide),
    (c8_single_page_pops_id [[("id", "a"), ("body", "b")]] (by decide)).2
      [("a", [("id", "a"), ("body", "b")])] (by decide)
      ("a", [("id", "a"), ("body", "b")]) (by decide)⟩

/-! ## Claim C10: merge of per-segment results in `BAScraper.get`

The windowed path reverses the task list, indexes each task's result by
`id`, logs the key intersection as conflicts and merges with the dict
union `submissions | _submissions` (right operand wins). -/

/-- Python dict union `m1 | m2`: start from `m1` and assign every binding
of `m2`, so bindings of `m2` win on conflicts. -/
def dunion (m1 m2 : List (String × PRec)) : List (String × PRec) :=
  m2.foldl (fun acc kv => aset kv.1 kv.2 acc) m1

/-- `submissions.keys() & _submissions.keys()`: the conflicting ids logged
by `BAScraper.get` before each union step. -/
def conflictKeys (m1 m2 : List (String × PRec)) : List String :=
  (akeys m1).filter (fun k => (alookup k m2).isSome)

/-- One iteration of the indexing loop of `BAScraper.get`: index the next
task's records, log the conflicts, take the union (new map wins). -/
def mergeGo (acc : List (String × PRec) × List String) :
    List (List PRec) → Option (List (String × PRec) × List String)
  | [] => some acc
  | task :: rest =>
    match indexSubmissions task with
    | none => none
    | some mi => mergeGo (dunion acc.1 mi, acc.2 ++ conflictKeys acc.1 mi) rest

/-- The merge step of `BAScraper.get`: `tasks["submissions"].reverse()`
followed by the indexing/union loop, returning the merged map and the ids
logged as conflicts. -/
def mergeTasks (results : List (List PRec)) :
    Option (List (String × PRec) × List String) :=
  mergeGo ([], []) results.reverse

/-- Lookup preferring the later entries of the merge-order task list: the
record for `k` of the latest-merged task that indexed `k`. -/
def lastIndexedLookup (k : String) : List (List PRec) → Option PRec
  | [] => none
  | task :: rest =>
    match lastIndexedLookup k rest with
    | some v => some v
    | none =>
      match indexSubmissions task with
      | some mi => alookup k mi
      | none => none

/-- Does this task's indexed result contain the id `k`? -/
def containsIdx (k : String) (task : List PRec) : Bool :=
  match indexSubmissions task with
  | some mi => (alookup k mi).isSome
  | none => false

theorem mem_akeys_aset {α : Type} (k v : String) (w : α) (m : List (String × α)) :
    k ∈ akeys (aset v w m) → k ∈ akeys m ∨ k = v := by
  induction m with
  | nil => simp [aset, akeys]
  | cons hd tl ih =>
    obtain ⟨k2, v2⟩ := hd
    by_cases h : k2 = v
    · subst h
      simp only [aset, if_true, eq_self_iff_true, akeys, List.map_cons, List.mem_cons]
      intro hm
      rcases hm with hm | hm
      · exact Or.inl (Or.inl hm)
      · exact Or.inl (Or.inr (by simpa [akeys] using hm))
    · simp only [aset, if_neg h, akeys, List.map_cons, List.mem_cons]
      intro hm
      rcases hm with hm | hm
      · exact Or.inl (Or.inl hm)
      · rcases ih (by simpa [akeys] using hm) with h2 | h2
        · exact Or.inl (Or.inr h2)
        · exact Or.inr h2

theorem akeys_aset_nodup {α : Type} (k : String) (v : α) (m : List (String × α))
    (h : (akeys m).Nodup) : (akeys (aset k v m)).Nodup := by
  induction m with
  | nil => simp [aset, akeys]
  | cons hd tl ih =>
    obtain ⟨k2, v2⟩ := hd
    simp only [akeys, List.map_cons, List.nodup_cons] at h
    by_cases h2 : k2 = k
    · subst h2
      simp only [aset, if_true, eq_self_iff_true, akeys, List.map_cons, List.nodup_cons]
      exact ⟨h.1, h.2⟩
    · simp only [aset, if_neg h2, akeys, List.map_cons, List.nodup_cons]
      refine ⟨?_, ih h.2⟩
      intro hm
      rcases mem_akeys_aset _ _ _ _ hm with h3 | h3
      · exact h.1 h3
      · exact h2 h3

/-- The union of two dicts keeps distinct keys when the left one had them. -/
theorem akeys_dunion_nodup (m1 m2 : List (String × PRec))
    (h : (akeys m1).Nodup) : (akeys (dunion m1 m2)).Nodup := by
  induction m2 generalizing m1 with
  | nil => exact h
  | cons hd tl ih =>
    obtain ⟨k2, v2⟩ := hd
    exact ih _ (akeys_aset_nodup _ _ _ h)

/-- Lookup in the dict union: the right operand wins on shared keys. -/
theorem alookup_dunion (k : String) (m1 m2 : List (String × PRec))
    (hnd : (akeys m2).Nodup) :
    alookup k (dunion m1 m2) =
      match alookup k m2 with
      | some v => some v
      | none => alookup k m1 := by
  induction m2 generalizing m1 with
  | nil => simp [dunion, alookup]
  | cons hd tl ih =>
    obtain ⟨k2, v2⟩ := hd
    simp only [akeys, List.map_cons, List.nodup_cons] at hnd
    have hstep : dunion m1 ((k2, v2) :: tl) = dunion (aset k2 v2 m1) tl := rfl
    rw [hstep, ih _ hnd.2]
    by_cases h : k2 = k
    · subst h
      have htl : alookup k2 tl = none := alookup_eq_none_of_not_mem _ _ hnd.1
      simp [alookup, htl, alookup_aset_self]
    · simp [alookup, h, alookup_aset_ne k k2 v2 m1 h]

/-- Maps produced by `indexSubmissions` have distinct keys. -/
theorem indexSubmissionsGo_nodup (rs : List PRec) :
    ∀ acc m, (akeys acc).Nodup → indexSubmissionsGo acc rs = some m →
      (akeys m).Nodup := by
  induction rs with
  | nil =>
    intro acc m hacc hb
    simp only [indexSubmissionsGo, Option.some.injEq] at hb
    subst hb
    exact hacc
  | cons r rest ih =>
    intro acc m hacc hb
    simp only [indexSubmissionsGo] at hb
    rcases hl : alookup "id" r with _ | i
    · rw [hl] at hb
      exact absurd hb (by simp)
    · rw [hl] at hb
      exact ih _ m (akeys_aset_nodup _ _ _ hacc) hb

theorem indexSubmissions_nodup (rs : List PRec) (m : List (String × PRec))
    (hb : indexSubmissions rs = some m) : (akeys m).Nodup :=
  indexSubmissionsGo_nodup rs [] m (by simp [akeys]) hb

/-- Membership of the conflict list. -/
theorem mem_conflictKeys (k : String) (m1 m2 : List (String × PRec)) :
    k ∈ conflictKeys m1 m2 ↔
      (alookup k m1).isSome = true ∧ (alookup k m2).isSome = true := by
  simp only [conflictKeys, List.mem_filter]
  constructor
  · intro h
    exact ⟨(alookup_isSome_iff_mem _ _).2 h.1, h.2⟩
  · intro h
    exact ⟨(alookup_isSome_iff_mem _ _).1 h.1, h.2⟩

/-- The log list only grows along the merge loop. -/
theorem mergeGo_log_monotone (tasks : List (List PRec)) :
    ∀ acc m logs, mergeGo acc tasks = some (m, logs) →
      ∀ x ∈ acc.2, x ∈ logs := by
  induction tasks with
  | nil =>
    intro acc m logs hb
    simp only [mergeGo, Option.some.injEq] at hb
    intro x hx
    subst hb
    exact hx
  | cons task rest ih =>
    intro acc m logs hb x hx
    simp only [mergeGo] at hb
    rcases hi : indexSubmissions task with _ | mi
    · rw [hi] at hb
      exact absurd hb (by simp)
    · rw [hi] at hb
      exact ih _ m logs hb x (List.mem_append_left _ hx)

/-- The merged map looks up to the latest-merged task that indexed the id. -/
theorem mergeGo_lookup (tasks : List (List PRec)) :
    ∀ acc m logs, (akeys acc.1).Nodup → mergeGo acc tasks = some (m, logs) →
      ∀ k, alookup k m =
        match lastIndexedLookup k tasks with
        | some v => some v
        | none => alookup k acc.1 := by
  induction tasks with
  | nil =>
    intro acc m logs _ hb k
    simp only [mergeGo, Option.some.injEq] at hb
    subst hb
    rfl
  | cons task rest ih =>
    intro acc m logs hacc hb k
    simp only [mergeGo] at hb
    rcases hi : indexSubmissions task with _ | mi
    · rw [hi] at hb
      exact absurd hb (by simp)
    · rw [hi] at hb
      have hmi : (akeys mi).Nodup := indexSubmissions_nodup task mi hi
      have hrec := ih _ m logs (akeys_dunion_nodup _ _ hacc) hb k
      rw [hrec]
      simp only [lastIndexedLookup, hi]
      rcases lastIndexedLookup k rest with _ | v
      · exact alookup_dunion k acc.1 mi hmi
      · rfl

/-- If an id is already present and a later task also indexes it, the id
is logged as a conflict. -/
theorem mergeGo_log_of_present (k : String) (tasks : List (List PRec)) :
    ∀ acc m logs, mergeGo acc tasks = some (m, logs) →
      (alookup k acc.1).isSome = true →
      tasks.any (containsIdx k) = true →
      k ∈ logs := by
  induction tasks with
  | nil =>
    intro acc m logs _ _ hany
    simp at hany
  | cons task rest ih =>
    intro acc m logs hb hpresent hany
    simp only [mergeGo] at hb
    rcases hi : indexSubmissions task with _ | mi
    · rw [hi] at hb
      exact absurd hb (by simp)
    · rw [hi] at hb
      rcases hmi : (alookup k mi).isSome with _ | _
      · have hrest : rest.any (containsIdx k) = true := by
          simp only [List.any_cons, containsIdx, hi, hmi, Bool.false_or] at hany
          exact hany
        refine ih _ m logs hb ?_ hrest
        have hnd : (akeys mi).Nodup := indexSubmissions_nodup task mi hi
        rw [alookup_dunion k acc.1 mi hnd]
        rcases hl : alookup k mi with _ | w
        · exact hpresent
        · rw [hl] at hmi
          simp at hmi
      · have hconf : k ∈ conflictKeys acc.1 mi :=
          (mem_conflictKeys k acc.1 mi).2 ⟨hpresent, hmi⟩
        exact mergeGo_log_monotone rest _ m logs hb k
          (List.mem_append_right _ hconf)

/-- If at least two tasks index the same id, that id is logged. -/
theorem mergeGo_log_of_two (k : String) (tasks : List (List PRec)) :
    ∀ acc m logs, (akeys acc.1).Nodup → mergeGo acc tasks = some (m, logs) →
      2 ≤ tasks.countP (containsIdx k) →
      k ∈ logs := by
  induction tasks with
  | nil =>
    intro acc m logs _ _ hcount
    simp only [List.countP_nil] at hcount
    omega
  | cons task rest ih =>
    intro acc m logs hacc hb hcount
    simp only [mergeGo] at hb
    rcases hi : indexSubmissions task with _ | mi
    · rw [hi] at hb
      exact absurd hb (by simp)
    · rw [hi] at hb
      rcases hmi : (alookup k mi).isSome with _ | _
      · have htask : containsIdx k task = false := by
          simp [containsIdx, hi, hmi]
        have hcount2 : 2 ≤ rest.countP (containsIdx k) := by
          rw [List.countP_cons, htask] at hcount
          simpa using hcount
        exact ih _ m logs (akeys_dunion_nodup _ _ hacc) hb hcount2
      · have htask : containsIdx k task = true := by
          simp [containsIdx, hi, hmi]
        have hcount1 : 1 ≤ rest.countP (containsIdx k) := by
          rw [List.countP_cons, htask] at hcount
          simp only [if_true, eq_self_iff_true] at hcount
          exact Nat.le_of_succ_le_succ hcount
        have hany : rest.any (containsIdx k) = true := by
          rcases List.countP_pos_iff.1 hcount1 with ⟨t, ht, htc⟩
          exact List.any_eq_true.2 ⟨t, ht, htc⟩
        refine mergeGo_log_of_present k rest _ m logs hb ?_ hany
        have hnd : (akeys mi).Nodup := indexSubmissions_nodup task mi hi
        rw [alookup_dunion k acc.1 mi hnd]
        rcases hl : alookup k mi with _ | w
        · rw [hl] at hmi
          simp at hmi
        · simp

/-- Claim C10: the windowed path of `BAScraper.get` merges per-segment
results by reversing the task list and taking successive dict unions, so the
merged map resolves every id to the record of the latest-merged task
containing it (`lastIndexedLookup` over the reversed list), independently of
any duplicate policy; and every id indexed by at least two tasks is logged
as a conflict. -/
theorem c10_merge_reversed_union (results : List (List PRec))
    (m : List (String × PRec)) (logs : List String) (k : String)
    (h : mergeTasks results = some (m, logs)) :
    alookup k m = lastIndexedLookup k results.reverse ∧
      (2 ≤ results.reverse.countP (containsIdx k) → k ∈ logs) := by
  constructor
  · have := mergeGo_lookup results.reverse ([], []) m logs (by simp [akeys]) h k
    rw [this]
    rcases lastIndexedLookup k results.reverse with _ | v
    · simp [alookup]
    · rfl
  · intro hcount
    exact mergeGo_log_of_two k results.reverse ([], []) m logs (by simp [akeys]) h hcount

/-- Witness for C10: two segments both produce a record with id `x`; the
merged map holds the record of the later-merged task (original segment 0)
and `x` is logged as a conflict. -/
theorem c10_witness :
    alookup "x" [("x", [("id", "x"), ("v", "new")])] =
        lastIndexedLookup "x" [[[("id", "x"), ("v", "old")]], [[("id", "x"), ("v", "new")]]] ∧
      "x" ∈ ["x"] :=
  ⟨(c10_merge_reversed_union [[[("id", "x"), ("v", "new")]], [[("id", "x"), ("v", "old")]]]
      [("x", [("id", "x"), ("v", "new")])] ["x"] "x" (by decide)).1,
    (c10_merge_reversed_union [[[("id", "x"), ("v", "new")]], [[("id", "x"), ("v", "old")]]]
      [("x", [("id", "x"), ("v", "new")])] ["x"] "x" (by decide)).2 (by decide)⟩

/-! ## Claims C4 and C5: `preprocess_json` and `_is_deleted`

The legacy indexing pass `preprocess_json` (BAScraper/utils.py) resolves
duplicate ids according to `duplicate_action`, consulting the deletion
heuristic `_is_deleted`. Python string operations are modelled on the
character lists underlying `String`. -/

/-- A Reddit submission/comment record, restricted to the fields read by
`preprocess_json` / `_is_deleted`; `payload` stands for the remaining
opaque fields (it distinguishes record versions). `deleted` is the
debug/testing override field consulted first by `_is_deleted`. -/
structure RRec where
  id : String
  deleted : Option Bool
  removed_by_category : Option String
  removal_reason : Option String
  author : Option String
  title : Option String
  selftext : Option String
  body : Option String
  payload : Nat
  deriving DecidableEq, Repr

/-- Python truthiness of an optional string (`None` and `""` are falsy). -/
def strTruthy : Option String → Bool
  | none => false
  | some s => s != ""

/-- `str.startswith(pre)`. -/
def pyStartsWith (s pre : String) : Bool :=
  pre.data.isPrefixOf s.data

/-- `str.endswith(suf)`. -/
def pyEndsWith (s suf : String) : Bool :=
  suf.data.isSuffixOf s.data

/-- Python substring containment `pat in s` on character lists. -/
def csub (pat : List Char) : List Char → Bool
  | [] => pat.isEmpty
  | c :: rest => pat.isPrefixOf (c :: rest) || csub pat rest

/-- `str.lower()` (ASCII case folding, as used by the deletion markers). -/
def pyLower (s : String) : List Char :=
  s.data.map Char.toLower

/-- `any(term in text.lower() for term in ['deleted', 'removed'])`. -/
def hasDeletionMarker (text : String) : Bool :=
  csub "deleted".data (pyLower text) || csub "removed".data (pyLower text)

/-- `re.match(r"\[.*]", text)`: anchored at the start only — the text must
begin with a `[` and contain a later `]` on the same line (`.` does not
match a newline). The regex is not anchored at the end. -/
def bracketMatch (s : String) : Bool :=
  match s.data with
  | [] => false
  | c :: rest => c == '[' && (rest.takeWhile (fun d => d != '\n')).contains ']'

/-- `text_field = 'selftext' if obj.get('title') is not None else 'body'`
followed by `obj.get(text_field, "")`. -/
def textOf (r : RRec) : String :=
  if r.title.isSome then r.selftext.getD "" else r.body.getD ""

/-- The deletion heuristic `_is_deleted` of BAScraper/utils.py:
debug override field first; then `removed_by_category`/`removal_reason`
markers; then author missing (`None`) or bracket-wrapped; then empty text
while the record has no (truthy) title; then the start-anchored bracket
regex with the 100-char cap and a deleted/removed marker. -/
def isDeleted (r : RRec) : Bool :=
  match r.deleted with
  | some b => b
  | none =>
    if r.removed_by_category.isSome || r.removal_reason.isSome then true
    else
      match r.author with
      | none => true
      | some a =>
        if pyStartsWith a "[" && pyEndsWith a "]" then true
        else if (textOf r == "") && !(strTruthy r.title) then true
        else if bracketMatch (textOf r) && decide ((textOf r).data.length ≤ 100) &&
            hasDeletionMarker (textOf r) then true
        else false

/-- The five duplicate-resolution policies of `preprocess_json`. -/
inductive DupAction
  | keep_newest
  | keep_oldest
  | remove
  | keep_original
  | keep_removed
  deriving DecidableEq, Repr

/-- A value of the indexing dict of `preprocess_json`: either a record or
the literal `'remove'` flag put in place of doomed duplicates. -/
inductive Entry
  | val (r : RRec)
  | removeFlag
  deriving DecidableEq, Repr

/-- Is this entry the `'remove'` flag? (`v != 'remove'` checks). -/
def isRemoveFlag : Entry → Bool
  | Entry.removeFlag => true
  | Entry.val _ => false

/-- One loop iteration of `preprocess_json`: insert a fresh id, otherwise
resolve the duplicate according to the policy. -/
def dedupStep (action : DupAction) (indexed : List (String × Entry)) (elem : RRec) :
    List (String × Entry) :=
  match alookup elem.id indexed with
  | none => aset elem.id (Entry.val elem) indexed
  | some prev =>
    match action with
    | .keep_newest => aset elem.id (Entry.val elem) indexed
    | .keep_oldest => indexed
    | .remove => aset elem.id Entry.removeFlag indexed
    | .keep_original =>
      let indexedDeleted := match prev with
        | Entry.removeFlag => true
        | Entry.val p => isDeleted p
      let currDeleted := isDeleted elem
      if indexedDeleted && currDeleted then aset elem.id Entry.removeFlag indexed
      else if indexedDeleted && !currDeleted then aset elem.id (Entry.val elem) indexed
      else if !indexedDeleted && currDeleted then indexed
      else aset elem.id (Entry.val elem) indexed
    | .keep_removed =>
      let indexedDeleted := match prev with
        | Entry.removeFlag => false
        | Entry.val p => isDeleted p
      let currDeleted := isDeleted elem
      if indexedDeleted && currDeleted then aset elem.id (Entry.val elem) indexed
      else if indexedDeleted && !currDeleted then indexed
      else if !indexedDeleted && currDeleted then aset elem.id (Entry.val elem) indexed
      else aset elem.id Entry.removeFlag indexed

/-- The final pass of `preprocess_json`: for the three flagging policies,
strip every `'remove'`-flagged id from the map. -/
def stripFlag (action : DupAction) (indexed : List (String × Entry)) :
    List (String × Entry) :=
  match action with
  | .keep_removed | .keep_original | .remove =>
    indexed.filter (fun kv => !(isRemoveFlag kv.2))
  | _ => indexed

/-- `preprocess_json`: fold the records into the indexing dict, then strip
the flagged ids. -/
def preprocessJson (action : DupAction) (rs : List RRec) : List (String × Entry) :=
  stripFlag action (rs.foldl (dedupStep action) [])

/-- With no debug override, `isDeleted` is the disjunction of the four
heuristic conditions. -/
theorem isDeleted_none_eq (r : RRec) (hdbg : r.deleted = none) :
    isDeleted r =
      ((r.removed_by_category.isSome || r.removal_reason.isSome) ||
        (match r.author with
          | none => true
          | some a => pyStartsWith a "[" && pyEndsWith a "]") ||
        ((textOf r == "") && !(strTruthy r.title)) ||
        (bracketMatch (textOf r) && decide ((textOf r).data.length ≤ 100) &&
          hasDeletionMarker (textOf r))) := by
  simp only [isDeleted, hdbg]
  rcases h1 : (r.removed_by_category.isSome || r.removal_reason.isSome) with _ | _
  · simp only [h1, Bool.false_or, if_false, Bool.false_eq_true]
    rcases hA : r.author with _ | a
    · simp
    · simp only []
      rcases h2 : (pyStartsWith a "[" && pyEndsWith a "]") with _ | _
      · simp only [h2, Bool.false_or, if_false, Bool.false_eq_true]
        rcases h3 : ((textOf r == "") && !(strTruthy r.title)) with _ | _
        · simp only [h3, Bool.false_or, if_false, Bool.false_eq_true]
          rcases h4 : (bracketMatch (textOf r) && decide ((textOf r).data.length ≤ 100) &&
              hasDeletionMarker (textOf r)) with _ | _
          · simp [h4]
          · simp [h4]
        · simp [h3]
      · simp [h2]
  · simp [h1]

/-- A record whose author is the empty string (but who is otherwise an
ordinary post): the heuristic does not classify it as deleted. -/
def emptyAuthorRec : RRec :=
  { id := "e1", deleted := none, removed_by_category := none, removal_reason := none,
    author := some "", title := some "My title", selftext := some "hello world",
    body := none, payload := 0 }

/-- A record whose body merely starts with a bracketed removal marker and
does not fully match the bracket pattern. -/
def prefixBracketRec : RRec :=
  { id := "e2", deleted := none, removed_by_category := none, removal_reason := none,
    author := some "someuser", title := some "My title",
    selftext := some "[removed] see my new post elsewhere", body := none, payload := 0 }

/-- Counterexample to claim C5 as stated: `_is_deleted` returns `False` for
a record whose author field is the empty string (only a missing author or a
bracket-wrapped author triggers the author clause). -/
theorem c5_counterexample :
    emptyAuthorRec.author = some "" ∧ isDeleted emptyAuthorRec = false := by
  constructor
  · rfl
  · decide

/-- Claim C5 (amended): the heuristic returns true when (given no debug
override) a removal marker is present, or the author is missing (`None`) or
bracket-wrapped — but an empty-string author does not count; or the text is
empty with no truthy title; or the text matches the bracket regex anchored
at the start only (`re.match(r"\[.*]", ...)`, not a full match), is at most
100 characters and contains a deleted/removed marker — so a text that merely
starts with `[removed]` is classified deleted. -/
theorem c5_deletion_heuristic_amended :
    (∀ r : RRec, r.deleted = none →
      ((r.removed_by_category.isSome || r.removal_reason.isSome) = true →
        isDeleted r = true) ∧
      (r.author = none → isDeleted r = true) ∧
      (∀ a, r.author = some a → (pyStartsWith a "[" && pyEndsWith a "]") = true →
        isDeleted r = true) ∧
      (textOf r = "" → strTruthy r.title = false → isDeleted r = true) ∧
      ((bracketMatch (textOf r) && decide ((textOf r).data.length ≤ 100) &&
          hasDeletionMarker (textOf r)) = true → isDeleted r = true)) ∧
    isDeleted emptyAuthorRec = false ∧
    isDeleted prefixBracketRec = true := by
  refine ⟨?_, by decide, by decide⟩
  intro r hdbg
  rw [isDeleted_none_eq r hdbg]
  refine ⟨?_, ?_, ?_, ?_, ?_⟩
  · intro h
    simp [h]
  · intro h
    simp [h]
  · intro a ha hb
    simp [ha, hb]
  · intro ht hti
    have : ((textOf r == "") && !(strTruthy r.title)) = true := by
      simp [ht, hti]
    simp [this]
  · intro h
    simp only [Bool.or_eq_true]
    refine Or.inr ?_
    simpa using h

/-- Witness for C5 (amended) at a concrete record with a missing author. -/
theorem c5_witness :
    isDeleted
      { id := "w5", deleted := none, removed_by_category := none, removal_reason := none,
        author := none, title := none, selftext := none,
        body := some "some comment text", payload := 0 } = true :=
  ((c5_deletion_heuristic_amended.1
      { id := "w5", deleted := none, removed_by_category := none, removal_reason := none,
        author := none, title := none, selftext := none,
        body := some "some comment text", payload := 0 } rfl).2.1) rfl

/-- Two versions of one record, both carrying the debug deleted marker. -/
def bothDeletedA : RRec :=
  { id := "x", deleted := some true, removed_by_category := none, removal_reason := none,
    author := some "u1", title := some "t", selftext := some "s", body := none, payload := 1 }

/-- The second, more recently seen deleted version of the same id. -/
def bothDeletedB : RRec :=
  { id := "x", deleted := some true, removed_by_category := none, removal_reason := none,
    author := some "u2", title := some "t", selftext := some "s", body := none, payload := 2 }

/-- Counterexample to claim C4 as stated: under `keep_original`, a duplicate
pair in which both records are detected deleted is flagged `'remove'` and
stripped from the output map — the most recently seen record is not kept. -/
theorem c4_counterexample :
    isDeleted bothDeletedA = true ∧ isDeleted bothDeletedB = true ∧
      alookup "x" (preprocessJson DupAction.keep_original [bothDeletedA, bothDeletedB]) =
        none := by
  refine ⟨by decide, by decide, by decide⟩

/-- Claim C4 (amended): for a duplicate pair, `keep_original` keeps the most
recently seen record when both are not-deleted and drops the id entirely
(via the `'remove'` flag) when both are deleted; `keep_removed` mirrors
this: it keeps the most recently seen record when both are deleted and
drops the id when both are not-deleted. -/
theorem c4_ambiguous_pairs_amended (r1 r2 : RRec) (hid : r1.id = r2.id) :
    (isDeleted r1 = false → isDeleted r2 = false →
      alookup r2.id (preprocessJson DupAction.keep_original [r1, r2]) =
          some (Entry.val r2) ∧
        alookup r2.id (preprocessJson DupAction.keep_removed [r1, r2]) = none) ∧
    (isDeleted r1 = true → isDeleted r2 = true →
      alookup r2.id (preprocessJson DupAction.keep_original [r1, r2]) = none ∧
        alookup r2.id (preprocessJson DupAction.keep_removed [r1, r2]) =
          some (Entry.val r2)) := by
  constructor
  · intro h1 h2
    constructor
    · simp [preprocessJson, dedupStep, alookup, aset, hid, h1, h2, stripFlag,
        isRemoveFlag]
    · simp [preprocessJson, dedupStep, alookup, aset, hid, h1, h2, stripFlag,
        isRemoveFlag]
  · intro h1 h2
    constructor
    · simp [preprocessJson, dedupStep, alookup, aset, hid, h1, h2, stripFlag,
        isRemoveFlag]
    · simp [preprocessJson, dedupStep, alookup, aset, hid, h1, h2, stripFlag,
        isRemoveFlag]

/-- Two not-deleted versions of one record for the C4 witness. -/
def bothKeptA : RRec :=
  { id := "y", deleted := some false, removed_by_category := none, removal_reason := none,
    author := some "u1", title := some "t", selftext := some "s", body := none, payload := 1 }

/-- The second, more recently seen not-deleted version of the same id. -/
def bothKeptB : RRec :=
  { id := "y", deleted := some false, removed_by_category := none, removal_reason := none,
    author := some "u2", title := some "t", selftext := some "s", body := none, payload := 2 }

/-- Witness for C4 (amended) on a concrete not-deleted duplicate pair. -/
theorem c4_witness :
    alookup "y" (preprocessJson DupAction.keep_original [bothKeptA, bothKeptB]) =
        some (Entry.val bothKeptB) ∧
      alookup "y" (preprocessJson DupAction.keep_removed [bothKeptA, bothKeptB]) = none :=
  (c4_ambiguous_pairs_amended bothKeptA bothKeptB rfl).1 rfl rfl

/-! ## Claims C3 and C7: `ArcticShift._fetch_time_window`

The window paginator loops `while cursor > end_time`, calling
`self._fetch_once` directly (note: NOT wrapped by the tenacity
`service_retry` decorator — only the public `fetch_once` wraps it), and the
surrounding `response_exception_handler` dispatches on the exception type:
a retryable exception reaches `on_retryable`, which deletes the temp file
and re-raises; `tenacity.RetryError` would reach `on_terminal_retryable`,
which returns the accumulated data with the temp file kept. -/

/-- A record as seen by the window paginator: its pagination timestamp and
an opaque tag distinguishing records. -/
structure WRec where
  created_utc : Int
  tag : Nat
  deriving DecidableEq, Repr

/-- The exception classes distinguished by `response_exception_handler`:
the retryable ones (network/timeout/RateLimitRetry), `tenacity.RetryError`,
`KeyboardInterrupt`, and everything else (fatal). -/
inductive PyErr
  | retryable
  | retryError
  | cancelled
  | fatal
  deriving DecidableEq, Repr

/-- The state in which the `operation` closure of `_fetch_time_window`
finishes: the escaping exception if any, the accumulated records, the
number of `_fetch_once` calls made, and whether the temp file still exists
(the loop's clean exits call `cleanup_tempfile`). -/
structure OpState where
  err : Option PyErr
  data : List WRec
  calls : Nat
  tempFile : Bool
  deriving DecidableEq, Repr

/-- The `while cursor > end_time` loop of `_fetch_time_window.operation`.
`fetch` maps the call index to the outcome of `self._fetch_once` (the page
fetcher stub of the claims); `fuel` bounds the iterations (`none` = fuel
ran out, which real executions with enough fuel never hit). On a page:
empty stops the loop (then the temp file is cleaned and `data` returned);
otherwise the cursor moves to the last record's `created_utc` and the page
is appended. An exception from `fetch` escapes with the temp file intact. -/
def windowLoop (fetch : Nat → Except PyErr (List WRec)) (endTime : Int) :
    Nat → Int → List WRec → Nat → Option OpState
  | 0, _, _, _ => none
  | fuel + 1, cursor, data, calls =>
    if endTime < cursor then
      match fetch calls with
      | .error e => some ⟨some e, data, calls + 1, true⟩
      | .ok page =>
        if page.length ≤ 0 then some ⟨none, data, calls + 1, false⟩
        else
          match page.getLast? with
          | some last => windowLoop fetch endTime fuel last.created_utc (data ++ page) (calls + 1)
          | none => some ⟨none, data, calls + 1, false⟩
    else some ⟨none, data, calls, false⟩

/-- `_fetch_time_window` = the loop above run from `cursor := before`, with
`response_exception_handler` mapped over its outcome: clean return passes
the data through; a retryable exception hits `on_retryable` (cleanup the
temp file, re-raise); `RetryError` hits `on_terminal_retryable` (return the
accumulated data, temp file kept); `KeyboardInterrupt` hits `on_cancel`
(return the accumulated data, temp file kept); anything else propagates. -/
def fetchTimeWindow (fetch : Nat → Except PyErr (List WRec)) (after before : Int)
    (fuel : Nat) : Option (Except PyErr (List WRec) × Nat × Bool) :=
  match windowLoop fetch after fuel before [] 0 with
  | none => none
  | some st =>
    match st.err with
    | none => some (.ok st.data, st.calls, st.tempFile)
    | some .retryable => some (.error .retryable, st.calls, false)
    | some .retryError => some (.ok st.data, st.calls, st.tempFile)
    | some .cancelled => some (.ok st.data, st.calls, st.tempFile)
    | some .fatal => some (.error .fatal, st.calls, st.tempFile)

/-- Claim C3 (code bug): with a page fetcher that raises a retryable error
on every call (the unwrapped `_fetch_once` raises exactly these network
errors; nothing in this call path ever raises `tenacity.RetryError`), the
window fetch propagates the retryable exception after a single call and the
temp file has been deleted by `on_retryable` — it does not return the
accumulated empty list and does not keep the temp file as the spec states.
The handler `on_terminal_retryable`, which implements the claimed
behaviour, is unreachable because `operation` is never wrapped by the
tenacity retry decorator `service_retry`. -/
theorem c3_retryable_failure_propagates :
    fetchTimeWindow (fun _ => .error .retryable) 0 10 5 =
      some (.error .retryable, 1, false) := by
  rfl

/-- First-page stub for the C7 counterexample: one record whose
`created_utc` equals the segment floor. -/
def c7CexFetcher : Nat → Except PyErr (List WRec) :=
  fun i => if i = 0 then .ok [⟨5, 0⟩] else .ok []

/-- Counterexample to claim C7 as stated: `after = 5 < before = 10`, the
fetcher returns a non-empty page on call 0 and an empty page afterwards,
but the first page's last `created_utc` equals `after`, so the loop
condition `cursor > end_time` fails and the fetch stops after exactly one
call, not two. -/
theorem c7_counterexample :
    fetchTimeWindow c7CexFetcher 5 10 10 = some (.ok [⟨5, 0⟩], 1, false) ∧
      (1 : Nat) ≠ 2 := by
  refine ⟨by rfl, by decide⟩

/-- Claim C7 (amended): if additionally the first page's last record has
`created_utc` strictly above the segment floor `after`, then the window
fetch makes exactly 2 page-fetch calls and returns exactly the first page's
records (clean completion, temp file removed). -/
theorem c7_two_calls_amended (fetch : Nat → Except PyErr (List WRec))
    (page1 : List WRec) (last : WRec) (after before : Int) (fuel : Nat)
    (hab : after < before) (hlast : page1.getLast? = some last)
    (hcursor : after < last.created_utc)
    (h0 : fetch 0 = .ok page1) (h1 : ∀ i, 1 ≤ i → fetch i = .ok [])
    (hfuel : 2 ≤ fuel) :
    fetchTimeWindow fetch after before fuel = some (.ok page1, 2, false) := by
  obtain ⟨fuel2, rfl⟩ : ∃ k, fuel = k + 2 := ⟨fuel - 2, by omega⟩
  have hne : page1 ≠ [] := by
    intro he
    rw [he] at hlast
    exact absurd hlast (by simp)
  have hlen : ¬ (page1.length ≤ 0) := by
    simpa [Nat.pos_iff_ne_zero] using List.length_pos.2 hne
  have hstep1 : windowLoop fetch after (fuel2 + 2) before [] 0 =
      windowLoop fetch after (fuel2 + 1) last.created_utc page1 1 := by
    simp [windowLoop, if_pos hab, h0, hlen, hlast]
  have hstep2 : windowLoop fetch after (fuel2 + 1) last.created_utc page1 1 =
      some ⟨none, page1, 2, false⟩ := by
    simp [windowLoop, if_pos hcursor, h1 1 (by omega)]
  simp [fetchTimeWindow, hstep1, hstep2]

/-- Witness for C7 (amended) at a concrete fetcher and segment. -/
def c7WitnessFetcher : Nat → Except PyErr (List WRec) :=
  fun i => if i = 0 then .ok [⟨9, 1⟩, ⟨7, 2⟩] else .ok []

/-- Witness for C7 (amended): two calls, first page returned. -/
theorem c7_witness :
    fetchTimeWindow c7WitnessFetcher 5 10 2 = some (.ok [⟨9, 1⟩, ⟨7, 2⟩], 2, false) :=
  c7_two_calls_amended c7WitnessFetcher [⟨9, 1⟩, ⟨7, 2⟩] ⟨7, 2⟩ 5 10 2
    (by decide) (by decide) (by decide) (by rfl)
    (fun i hi => by
      simp only [c7WitnessFetcher]
      rw [if_neg (by omega)])
    (by decide)

/-! ## Claim C6: `ArcticShift._fetch_post_comments`

The consumer loop pops ids from the queue until the `<END>` sentinel. The
per-item `operation` again calls the unwrapped `self._fetch_once`:
`on_retryable` cleans the temp file and re-raises (expecting tenacity to
retry, but nothing wraps the call), `on_terminal_retryable` would mark the
item done and return the enclosing `tree` variable, and `on_cancel`
re-raises. -/

/-- The `<END>` sentinel pushed once per consumer. -/
def END : String := "<END>"

/-- The consumer loop of `_fetch_post_comments` over the queue contents (in
pop order). `treeFetch` is the outcome of the per-parent tree fetch and the
comment-tree records are opaque (`Nat`). Returns the exception or the
accumulated data, whether the temp file still exists, and how many queue
items were marked done (`task_done`). `prevTree` models the Python closure
variable `tree`, which `on_terminal_retryable` returns: it is unbound
(= `none`, a `NameError`, modelled as a fatal exception) until the first
item has been processed; on later items the PREVIOUS item's tree is
returned and appended again, and `task_done` runs twice for that item. -/
def commentWorker (treeFetch : String → Except PyErr (List Nat)) :
    List String → List Nat → Nat → Option (List Nat) →
      Option (Except PyErr (List Nat) × Bool × Nat)
  | [], _, _, _ => none
  | currentId :: restQueue, data, done, prevTree =>
    if currentId = END then some (.ok data, false, done + 1)
    else
      match treeFetch currentId with
      | .ok tree =>
        commentWorker treeFetch restQueue (data ++ tree) (done + 1) (some tree)
      | .error .retryable => some (.error .retryable, false, done)
      | .error .retryError =>
        match prevTree with
        | none => some (.error .fatal, true, done + 1)
        | some t =>
          commentWorker treeFetch restQueue (data ++ t) (done + 2) (some t)
      | .error .cancelled => some (.error .cancelled, true, done)
      | .error .fatal => some (.error .fatal, true, done)

/-- Claim C6 (code bug): with a queue holding one parent id and the
sentinel, and a tree fetch that keeps failing with a retryable error (what
the unwrapped `_fetch_once` raises; `tenacity.RetryError` is never raised
in this call path, so `on_terminal_retryable` is unreachable), the worker
does not skip the item: the retryable exception propagates out of the
consumer loop, the item is never marked done, and no result is returned. -/
theorem c6_retryable_failure_kills_worker :
    commentWorker (fun _ => .error .retryable) ["p1", END] [] 0 none =
      some (.error .retryable, false, 0) := by
  rfl

/-! ## Claim C2: the `AdaptiveRateLimiter` token gate

State and transitions of `AdaptiveRateLimiter` (utils/limiter.py),
restricted to the token gate (the `AsyncLimiter` pacer that follows the
gate is a separate smoothing stage). Monotonic time is modelled as an exact
rational. The loop body of `acquire` is one `acquireStep`; a waiting caller
resumes at the reset deadline and re-runs the loop, which then clears the
token count and proceeds. Calls are serialized by the condition-variable
lock, so a run threads the observed clock: each call's effective time is at
least the previous call's completion time. -/

/-- `self._tokens` (None = unknown, do not gate) and `self._reset_at`. -/
structure LimiterState where
  tokens : Option Int
  resetAt : ℚ
  deriving DecidableEq, Repr

/-- Outcome of one iteration of the `while True` loop inside `acquire`. -/
inductive GateStep
  | proceed (consumed : Bool) (σ : LimiterState)
  | waitUntil (t : ℚ) (σ : LimiterState)
  deriving DecidableEq, Repr

/-- One iteration of the `acquire` loop at monotonic time `now`: clear the
tokens when the reset deadline has passed; pass immediately when tokens are
unknown; consume one token when available; otherwise wait until the reset
deadline. -/
def acquireStep (σ : LimiterState) (now : ℚ) : GateStep :=
  let σ1 := if σ.tokens.isSome && decide (σ.resetAt ≤ now) then
      { σ with tokens := none }
    else σ
  match σ1.tokens with
  | none => GateStep.proceed false σ1
  | some t =>
    if 0 < t then GateStep.proceed true { σ1 with tokens := some (t - 1) }
    else GateStep.waitUntil σ1.resetAt σ1

/-- `acquire()`: returns the time at which the caller passes the token
gate, whether it consumed a token, and the state it leaves behind. A
waiting caller re-runs the loop at the reset deadline, where the step
always proceeds (the fallback arm is unreachable). -/
def acquire (σ : LimiterState) (now : ℚ) : ℚ × Bool × LimiterState :=
  match acquireStep σ now with
  | GateStep.proceed c σ1 => (now, c, σ1)
  | GateStep.waitUntil t σ1 =>
    match acquireStep σ1 t with
    | GateStep.proceed c σ2 => (t, c, σ2)
    | GateStep.waitUntil _ σ2 => (t, false, { σ2 with tokens := none })

/-- `max(0, int(safety_margin))` from `AdaptiveRateLimiter.__init__`. -/
def safetyMarginOf (m : Int) : Int := max 0 m

/-- `update(remaining, reset_seconds)`: clamp the reset interval below by
one millisecond, reserve `max(0, remaining - safety_margin)` tokens and set
the deadline `now + reset_seconds` (the pacer recomputation is the separate
smoothing stage). -/
def update (margin : Int) (now0 : ℚ) (remaining : Int) (resetSeconds : ℚ) :
    LimiterState :=
  let rs := max (1 / 1000 : ℚ) resetSeconds
  let effective := max 0 (remaining - safetyMarginOf margin)
  { tokens := some effective, resetAt := now0 + rs }

/-- A serialized run of `acquire` calls: each call arrives at its listed
time but never observes a clock earlier than the previous call's completion
(the condition variable serializes the loop iterations); returns the list
of gate-passing times. -/
def runAcquires (σ : LimiterState) (clock : ℚ) : List ℚ → List ℚ
  | [] => []
  | a :: rest =>
    ((acquire σ (max clock a)).1) ::
      runAcquires (acquire σ (max clock a)).2.2 (acquire σ (max clock a)).1 rest

theorem acquireStep_none (σ : LimiterState) (now : ℚ) (h : σ.tokens = none) :
    acquireStep σ now = GateStep.proceed false σ := by
  simp [acquireStep, h]

theorem acquireStep_expired (σ : LimiterState) (now : ℚ) (t : Int)
    (h : σ.tokens = some t) (hn : σ.resetAt ≤ now) :
    acquireStep σ now = GateStep.proceed false { σ with tokens := none } := by
  simp [acquireStep, h, hn]

theorem acquireStep_consume (σ : LimiterState) (now : ℚ) (t : Int)
    (h : σ.tokens = some t) (hn : ¬ σ.resetAt ≤ now) (hp : 0 < t) :
    acquireStep σ now = GateStep.proceed true { σ with tokens := some (t - 1) } := by
  simp [acquireStep, h, hn, hp]

theorem acquireStep_wait (σ : LimiterState) (now : ℚ) (t : Int)
    (h : σ.tokens = some t) (hn : ¬ σ.resetAt ≤ now) (hp : ¬ 0 < t) :
    acquireStep σ now = GateStep.waitUntil σ.resetAt σ := by
  simp [acquireStep, h, hn, hp]

theorem acquire_tokens_none (σ : LimiterState) (now : ℚ) (h : σ.tokens = none) :
    acquire σ now = (now, false, σ) := by
  simp [acquire, acquireStep_none σ now h]

theorem acquire_expired (σ : LimiterState) (now : ℚ) (t : Int)
    (h : σ.tokens = some t) (hn : σ.resetAt ≤ now) :
    acquire σ now = (now, false, { σ with tokens := none }) := by
  simp [acquire, acquireStep_expired σ now t h hn]

theorem acquire_consume (σ : LimiterState) (now : ℚ) (t : Int)
    (h : σ.tokens = some t) (hn : ¬ σ.resetAt ≤ now) (hp : 0 < t) :
    acquire σ now = (now, true, { σ with tokens := some (t - 1) }) := by
  simp [acquire, acquireStep_consume σ now t h hn hp]

theorem acquire_wait (σ : LimiterState) (now : ℚ) (t : Int)
    (h : σ.tokens = some t) (hn : ¬ σ.resetAt ≤ now) (hp : ¬ 0 < t) :
    acquire σ now = (σ.resetAt, false, { σ with tokens := none }) := by
  simp only [acquire, acquireStep_wait σ now t h hn hp,
    acquireStep_expired σ σ.resetAt t h le_rfl]

/-- Gate safety: starting from `tokens = some t` (or exhausted past the
deadline), a serialized run passes at most `t` callers before the reset
deadline. -/
theorem runAcquires_gate_bound (R : ℚ) (times : List ℚ) :
    ∀ (σ : LimiterState) (clock : ℚ), σ.resetAt = R →
      (σ.tokens = none → R ≤ clock) →
      (runAcquires σ clock times).countP (fun p => decide (p < R)) ≤
        (match σ.tokens with | some t => t.toNat | none => 0) := by
  induction times with
  | nil =>
    intro σ clock hR hnone
    simp [runAcquires]
  | cons a rest ih =>
    intro σ clock hR hnone
    rcases htok : σ.tokens with _ | t
    · have hclock := hnone htok
      have hnow : R ≤ max clock a := le_trans hclock (le_max_left _ _)
      rw [runAcquires, acquire_tokens_none σ _ htok]
      simp only [List.countP_cons, decide_eq_true_eq, not_lt.2 hnow, decide_eq_false,
        if_false]
      have hrec := ih σ (max clock a) hR (fun _ => hnow)
      rw [htok] at hrec
      simpa using hrec
    · by_cases hle : σ.resetAt ≤ max clock a
      · rw [runAcquires, acquire_expired σ _ t htok hle]
        have hnow : R ≤ max clock a := hR ▸ hle
        simp only [List.countP_cons, decide_eq_true_eq, not_lt.2 hnow, decide_eq_false,
          if_false]
        have hrec := ih { σ with tokens := none } (max clock a) (by simp [hR])
          (fun _ => hnow)
        simp only at hrec
        omega
      · by_cases hp : 0 < t
        · rw [runAcquires, acquire_consume σ _ t htok hle hp]
          have hnow : max clock a < R := by
            rw [← hR]
            exact not_le.1 hle
          simp only [List.countP_cons, decide_eq_true_eq, hnow, if_pos, decide_eq_true]
          have hrec := ih { σ with tokens := some (t - 1) } (max clock a) (by simp [hR])
            (by intro hc; simp at hc)
          simp only at hrec
          omega
        · rw [runAcquires, acquire_wait σ _ t htok hle hp]
          have hrec := ih { σ with tokens := none } σ.resetAt (by simp [hR])
            (fun _ => le_of_eq hR.symm)
          simp only at hrec
          have hcount0 :
              (runAcquires { σ with tokens := none } σ.resetAt rest).countP
                (fun p => decide (p < R)) = 0 := Nat.le_zero.1 hrec
          have hRlt : ¬ (σ.resetAt < R) := by
            rw [hR]
            exact lt_irrefl R
          simp [List.countP_cons, hcount0, hRlt]

/-- Claim C2: after `update` establishes `k = max(0, remaining - margin)`
tokens, a serialized run of `acquire` calls passes at most `k` callers
before the reset deadline; a caller that arrives with `tokens = 0` before
the deadline suspends until exactly the deadline; and a caller that arrives
while the tokens are unknown (`None`) proceeds at its arrival time without
consuming a token, leaving the state unchanged. -/
theorem c2_token_gate (margin : Int) (now0 : ℚ) (remaining : Int)
    (resetSeconds : ℚ) (times : List ℚ) :
    ((runAcquires (update margin now0 remaining resetSeconds) now0 times).countP
        (fun p => decide (p < (update margin now0 remaining resetSeconds).resetAt)) ≤
      (max 0 (remaining - safetyMarginOf margin)).toNat) ∧
    (∀ (σ : LimiterState) (now : ℚ), σ.tokens = some 0 → now < σ.resetAt →
      (acquire σ now).1 = σ.resetAt) ∧
    (∀ (σ : LimiterState) (now : ℚ), σ.tokens = none →
      acquire σ now = (now, false, σ)) := by
  refine ⟨?_, ?_, ?_⟩
  · have hb := runAcquires_gate_bound (update margin now0 remaining resetSeconds).resetAt
      times (update margin now0 remaining resetSeconds) now0 rfl
      (by intro hc; simp [update] at hc)
    simpa [update] using hb
  · intro σ now h hn
    rw [acquire_wait σ now 0 h (not_le.2 hn) (lt_irrefl 0)]
  · intro σ now h
    exact acquire_tokens_none σ now h

/-- Witness for C2 at concrete states: a waiter with zero tokens passes at
the deadline, an unknown-tokens caller passes immediately, and a concrete
run respects the bound. -/
theorem c2_witness :
    (acquire ⟨some 0, 10⟩ 5).1 = (10 : ℚ) ∧
      acquire ⟨none, 3⟩ 7 = (7, false, ⟨none, 3⟩) ∧
      (runAcquires (update 1 0 3 10) 0 [1, 2, 3, 4]).countP
          (fun p => decide (p < (update 1 0 3 10).resetAt)) ≤
        (max 0 (3 - safetyMarginOf 1)).toNat := by
  refine ⟨?_, ?_, ?_⟩
  · have h := (c2_token_gate 1 0 3 10 []).2.1 ⟨some 0, 10⟩ 5 rfl (by norm_num)
    simpa using h
  · exact (c2_token_gate 1 0 3 10 []).2.2 ⟨none, 3⟩ 7 rfl
  · exact (c2_token_gate 1 0 3 10 [1, 2, 3, 4]).1

/-! ## Claim C1: time-segment computation of `BAScraper.get`

`segment_duration = (before - after) / no_workers` (Python float division,
modelled exactly over ℚ), boundaries
`[ceil(after + s*d), ceil(after + (s+1)*d) - 1]` for `s < n`, and
`segments[-1][-1] = before` clamps the final end. -/

/-- `segment_duration = (v_settings.before - v_settings.after) / v_settings.no_workers`. -/
def segmentDuration (a b : Int) (n : Nat) : ℚ :=
  ((b : ℚ) - (a : ℚ)) / (n : ℚ)

/-- `math.ceil(v_settings.after + s * segment_duration)`. -/
def segStart (a b : Int) (n : Nat) (s : Nat) : Int :=
  Int.ceil ((a : ℚ) + (s : ℚ) * segmentDuration a b n)

/-- `math.ceil(v_settings.after + (s + 1) * segment_duration) - 1`. -/
def segEndRaw (a b : Int) (n : Nat) (s : Nat) : Int :=
  Int.ceil ((a : ℚ) + ((s : ℚ) + 1) * segmentDuration a b n) - 1

/-- The segment end after `segments[-1][-1] = v_settings.before` clamps the
final segment. -/
def segEnd (a b : Int) (n : Nat) (s : Nat) : Int :=
  if s = n - 1 then b else segEndRaw a b n s

/-- The segment list built by `BAScraper.get` for `no_workers = n`. -/
def segments (a b : Int) (n : Nat) : List (Int × Int) :=
  (List.range n).map (fun s => (segStart a b n s, segEnd a b n s))

theorem segEndRaw_eq (a b : Int) (n : Nat) (s : Nat) :
    segEndRaw a b n s = segStart a b n (s + 1) - 1 := by
  unfold segEndRaw segStart
  push_cast
  ring_nf

theorem segmentDuration_nonneg (a b : Int) (n : Nat) (hab : a ≤ b) :
    0 ≤ segmentDuration a b n := by
  unfold segmentDuration
  apply div_nonneg
  · simpa using sub_nonneg.2 (show (a : ℚ) ≤ (b : ℚ) by exact_mod_cast hab)
  · exact Nat.cast_nonneg n

theorem segStart_zero (a b : Int) (n : Nat) : segStart a b n 0 = a := by
  simp [segStart]

theorem segStart_mono (a b : Int) (n : Nat) (hab : a ≤ b) (s t : Nat) (hst : s ≤ t) :
    segStart a b n s ≤ segStart a b n t := by
  unfold segStart
  apply Int.ceil_mono
  apply add_le_add_left
  apply mul_le_mul_of_nonneg_right
  · exact_mod_cast hst
  · exact segmentDuration_nonneg a b n hab

theorem segStart_last (a b : Int) (n : Nat) (hn : 1 ≤ n) : segStart a b n n = b := by
  have hne : (n : ℚ) ≠ 0 := Nat.cast_ne_zero.2 (by omega)
  have harg : (a : ℚ) + (n : ℚ) * segmentDuration a b n = (b : ℚ) := by
    unfold segmentDuration
    field_simp
  rw [segStart, harg, Int.ceil_intCast]

/-- For a monotone integer staircase with `g 0 ≤ x < g n` there is a stage
`s` with `g s ≤ x < g (s+1)`. -/
theorem exists_stage (g : Nat → Int) (n : Nat)
    (x : Int) (h0 : g 0 ≤ x) (hn : x < g n) :
    ∃ s, s < n ∧ g s ≤ x ∧ x < g (s + 1) := by
  induction n with
  | zero => omega
  | succ k ih =>
    by_cases hk : g k ≤ x
    · exact ⟨k, Nat.lt_succ_self k, hk, hn⟩
    · rcases ih (not_le.1 hk) with ⟨s, hs, h1, h2⟩
      exact ⟨s, Nat.lt_succ_of_lt hs, h1, h2⟩

/-- Claim C1: for `after < before` and worker count `n ≥ 1`, the segments
of `BAScraper.get` (ceiling boundaries, final end clamped to `before`) are
contiguous (each raw end is exactly the next start minus one), mutually
non-overlapping, and their union covers the integer range
`[after, before]` exactly. -/
theorem c1_segments_cover (a b : Int) (n : Nat) (hab : a < b) (hn : 1 ≤ n) :
    (∀ s, s < n → (segments a b n)[s]? = some (segStart a b n s, segEnd a b n s)) ∧
    (∀ s, s + 1 < n → segEnd a b n s + 1 = segStart a b n (s + 1)) ∧
    (∀ s t x, s < t → t < n →
      ¬(segStart a b n s ≤ x ∧ x ≤ segEnd a b n s ∧
        segStart a b n t ≤ x ∧ x ≤ segEnd a b n t)) ∧
    (∀ x : Int, (a ≤ x ∧ x ≤ b) ↔
      ∃ s, s < n ∧ segStart a b n s ≤ x ∧ x ≤ segEnd a b n s) := by
  have hseg_end_mid : ∀ s, s + 1 < n → segEnd a b n s = segStart a b n (s + 1) - 1 := by
    intro s hs
    have hne : s ≠ n - 1 := by omega
    rw [segEnd, if_neg hne, segEndRaw_eq]
  refine ⟨?_, ?_, ?_, ?_⟩
  · intro s hs
    simp [segments, hs]
  · intro s hs
    rw [hseg_end_mid s hs]
    omega
  · intro s t x hst htn hall
    obtain ⟨h1, h2, h3, h4⟩ := hall
    have hs1 : s + 1 < n := by omega
    have he : segEnd a b n s = segStart a b n (s + 1) - 1 := hseg_end_mid s hs1
    have hmono : segStart a b n (s + 1) ≤ segStart a b n t :=
      segStart_mono a b n hab.le (s + 1) t (by omega)
    omega
  · intro x
    constructor
    · rintro ⟨hax, hxb⟩
      by_cases hx : x = b
      · refine ⟨n - 1, by omega, ?_, ?_⟩
        · rw [hx]
          calc segStart a b n (n - 1) ≤ segStart a b n n :=
                segStart_mono a b n hab.le (n - 1) n (by omega)
            _ = b := segStart_last a b n hn
        · rw [segEnd, if_pos rfl]
          exact hxb
      · have hxlt : x < segStart a b n n := by
          rw [segStart_last a b n hn]
          omega
        have h0 : segStart a b n 0 ≤ x := by
          rw [segStart_zero]
          exact hax
        rcases exists_stage (segStart a b n) n x h0 hxlt with ⟨s, hs, hle, hlt⟩
        refine ⟨s, hs, hle, ?_⟩
        by_cases hsl : s = n - 1
        · rw [segEnd, if_pos hsl]
          exact hxb
        · rw [hseg_end_mid s (by omega)]
          omega
    · rintro ⟨s, hs, h1, h2⟩
      constructor
      · calc a = segStart a b n 0 := (segStart_zero a b n).symm
          _ ≤ segStart a b n s := segStart_mono a b n hab.le 0 s (Nat.zero_le s)
          _ ≤ x := h1
      · by_cases hsl : s = n - 1
        · rw [segEnd, if_pos hsl] at h2
          exact h2
        · rw [hseg_end_mid s (by omega)] at h2
          have : segStart a b n (s + 1) ≤ segStart a b n n :=
            segStart_mono a b n hab.le (s + 1) n (by omega)
          rw [segStart_last a b n hn] at this
          omega

/-- Witness for C1: with `after = 0`, `before = 10`, `n = 3` workers,
segment 0 ends exactly one before segment 1 starts. -/
theorem c1_witness :
    segEnd 0 10 3 0 + 1 = segStart 0 10 3 1 :=
  (c1_segments_cover 0 10 3 (by decide) (by decide)).2.1 0 (by decide)
